import Mathlib

/-!
# Chainlink `core/store`: the Ethereum client and the queued run channel

A shallow embedding of `core/store/eth_client.go`.  Every operation of
`EthClient` is a function of the transport (`CallerSubscriber`) and of the
transport's state, and returns the Go result pair together with the next state.
The Go standard library and go-ethereum helpers the operations rely on
(`math/big`, `strconv`, `common.Address`) are embedded next to them.
-/

namespace Chainlink

/-! ## Bytes, addresses and hashes (go-ethereum `common`) -/

/-- A Go `byte`. -/
abbrev Byte := Fin 256

/-- The type `common.Address`: an array of `AddressLength = 20` bytes. -/
structure Address where
  bytes : List Byte
  size : bytes.length = 20

/-- The type `common.Hash`: an array of `HashLength = 32` bytes. -/
structure Hash where
  bytes : List Byte
  size : bytes.length = 32

instance : DecidableEq Address := fun a b =>
  if h : a.bytes = b.bytes then isTrue (by cases a; cases b; cases h; rfl)
  else isFalse (fun e => h (congrArg Address.bytes e))

instance : DecidableEq Hash := fun a b =>
  if h : a.bytes = b.bytes then isTrue (by cases a; cases b; cases h; rfl)
  else isFalse (fun e => h (congrArg Hash.bytes e))

/-- The zero value `common.Address{}`. -/
def Address.zero : Address := ⟨List.replicate 20 0, by simp⟩

/-- The zero value `common.Hash{}`. -/
def Hash.zero : Hash := ⟨List.replicate 32 0, by simp⟩

/-- The method `Address.Bytes`: the 20 bytes of the address. -/
def Address.Bytes (a : Address) : List Byte := a.bytes

/-- The function `common.LeftPadBytes(slice, l)`: the slice itself when it is at
least `l` long, otherwise `l` bytes ending in the slice, zero before it. -/
def LeftPadBytes (slice : List Byte) (l : Nat) : List Byte :=
  if l ≤ slice.length then slice
  else List.replicate (l - slice.length) 0 ++ slice

/-- The function `common.BytesToAddress(b)`, that is `Address.SetBytes` on a
zero address: a slice longer than 20 bytes is cropped from the left, and the
bytes are copied to the right end of the array. -/
def BytesToAddress (b : List Byte) : Address :=
  ⟨List.replicate (20 - (b.drop (b.length - 20)).length) 0 ++ b.drop (b.length - 20), by
    simp only [List.length_append, List.length_replicate, List.length_drop]
    omega⟩

/-! ## `math/big`: `Int.SetString` -/

/-- The constant `big.MaxBase`. -/
def MaxBase : Nat := 62

/-- The constant `maxBaseSmall` of `math/big`. -/
def maxBaseSmall : Nat := 36

/-- The value `d1` that `nat.scan` gives the byte `ch` in base `b`;
`MaxBase + 1` for a byte that is no digit. -/
def digitVal (b : Nat) (ch : Char) : Nat :=
  if '0'.toNat ≤ ch.toNat ∧ ch.toNat ≤ '9'.toNat then ch.toNat - '0'.toNat
  else if 'a'.toNat ≤ ch.toNat ∧ ch.toNat ≤ 'z'.toNat then ch.toNat - 'a'.toNat + 10
  else if 'A'.toNat ≤ ch.toNat ∧ ch.toNat ≤ 'Z'.toNat then
    (if b ≤ maxBaseSmall then ch.toNat - 'A'.toNat + 10
     else ch.toNat - 'A'.toNat + maxBaseSmall)
  else MaxBase + 1

/-- The errors `nat.scan` reports (end of input is not one of them). -/
inductive ScanError where
  | errNoDigits
  | errInvalSep
  deriving DecidableEq

/-- The variables the digit loop of `nat.scan` updates: the number read so far,
the count of digits, the kind of the previous byte (`'_'`, `'0'` for a digit,
`'.'` for anything else) and whether a misplaced separator was seen. -/
structure ScanState where
  z : Nat
  count : Nat
  prev : Char
  invalSep : Bool
  deriving DecidableEq

/-- The digit loop of `nat.scan` for `fracOk = false`, run on the bytes not yet
consumed (the head is the look-ahead `ch`).  It returns the final variables and
the bytes left in the reader: a byte that is no digit of base `b` is unread and
ends the loop.  The words `di`, `bn` of the Go loop only batch the
multiplications `z = z*b + d1`. -/
def scanLoop (b base : Nat) : List Char → ScanState → ScanState × List Char
  | [], st => (st, [])
  | ch :: rest, st =>
    if ch = '_' ∧ base = 0 then
      scanLoop b base rest
        { st with invalSep := st.invalSep || decide (st.prev ≠ '0'), prev := '_' }
    else if b ≤ digitVal b ch then (st, ch :: rest)
    else
      scanLoop b base rest
        { st with prev := '0', count := st.count + 1, z := st.z * b + digitVal b ch }

/-- What `nat.scan` returns, and the bytes it left in the reader. -/
structure NatScan where
  res : Nat
  b : Nat
  count : Nat
  err : Option ScanError
  rest : List Char
  deriving DecidableEq

/-- The end of `nat.scan`, after the digit loop: separator and digit-count
checks.  `pfx` is the base prefix seen (`0` for none, else the byte `'b'`, `'o'`,
`'x'` or `'0'`). -/
def scanFinish (b : Nat) (pfx : Char) (r : ScanState × List Char) : NatScan :=
  let err : Option ScanError :=
    if r.1.invalSep ∨ r.1.prev = '_' then some .errInvalSep else none
  if r.1.count = 0 then
    if pfx = '0' then ⟨0, 10, 1, err, r.2⟩
    else ⟨r.1.z, b, r.1.count, some .errNoDigits, r.2⟩
  else ⟨r.1.z, b, r.1.count, err, r.2⟩

/-- The method `nat.scan(r, base, false)` of `math/big` on the bytes `cs` of the
reader, for `base = 0` or `2 ≤ base ≤ MaxBase`: with `base = 0` the prefixes
`0b`, `0o`, `0x` (either case) and `0` choose base 2, 8, 16 and 8, and `_` may
separate digits. -/
def natScan (cs : List Char) (base : Nat) : NatScan :=
  if base = 0 then
    match cs with
    | '0' :: ch :: rest =>
      if ch = 'b' ∨ ch = 'B' then
        scanFinish 2 'b' (scanLoop 2 base rest ⟨0, 0, '0', false⟩)
      else if ch = 'o' ∨ ch = 'O' then
        scanFinish 8 'o' (scanLoop 8 base rest ⟨0, 0, '0', false⟩)
      else if ch = 'x' ∨ ch = 'X' then
        scanFinish 16 'x' (scanLoop 16 base rest ⟨0, 0, '0', false⟩)
      else
        scanFinish 8 '0' (scanLoop 8 base (ch :: rest) ⟨0, 0, '0', false⟩)
    | ['0'] => scanFinish 10 (Char.ofNat 0) (⟨0, 1, '0', false⟩, [])
    | _ => scanFinish 10 (Char.ofNat 0) (scanLoop 10 base cs ⟨0, 0, '.', false⟩)
  else
    scanFinish base (Char.ofNat 0) (scanLoop base base cs ⟨0, 0, '.', false⟩)

namespace big

/-- The type `big.Int`: a sign and a magnitude (`neg`, `abs`). -/
structure Int where
  neg : Bool
  abs : Nat
  deriving DecidableEq

end big

/-- The value `new(big.Int)`: zero. -/
def big.Int.new : big.Int := ⟨false, 0⟩

/-- The function `big.NewInt(x)`. -/
def big.NewInt (x : ℤ) : big.Int := ⟨decide (x < 0), x.natAbs⟩

/-- The integer a `big.Int` denotes. -/
def big.Int.toInt (x : big.Int) : ℤ :=
  if x.neg then -(x.abs : ℤ) else (x.abs : ℤ)

/-- The method `(*big.Int).SetString(s, base)`: the value the receiver `z`
holds after the call, and the boolean `ok` the call returns.  `scanSign` reads
an optional sign; a failure there (empty input) leaves `z` as it was.
`z.abs` is then assigned what `nat.scan` returns, also when that reports an
error; the sign is only assigned when it reports none.  Input left over after
the number makes the call fail with `z` already assigned. -/
def big.Int.SetString (z : big.Int) (s : String) (base : Nat) : big.Int × Bool :=
  match s.data with
  | [] => (z, false)
  | ch :: rest =>
    let neg := decide (ch = '-')
    let r := natScan (if ch = '-' ∨ ch = '+' then rest else ch :: rest) base
    match r.err with
    | some _ => (⟨z.neg, r.res⟩, false)
    | none => (⟨decide (0 < r.res) && neg, r.res⟩, decide (r.rest = []))

/-! ## Errors -/

/-- A Go `error` value: one the transport made up (any message), or the
`*strconv.NumError` of `strconv.ParseUint` (`ErrSyntax`, `ErrRange`) on the
input it names. -/
inductive Error where
  | rpc (msg : String)
  | errSyntax (fn : String) (num : String)
  | errRange (fn : String) (num : String)
  deriving DecidableEq

/-! ## `strconv.ParseUint` and `utils.HexToUint64` -/

/-- The largest `uint64`. -/
def maxUint64 : Nat := 2 ^ 64 - 1

/-- The digit loop of `strconv.ParseUint(s0, base, 64)` for `2 ≤ base ≤ 36`,
on the bytes still to read, with `n` the number read so far: `none` for a byte
that is no digit of the base, `some (maxUint64, false)` on overflow. -/
def parseUintLoop (base : Nat) : List Char → Nat → Option (Nat × Bool)
  | [], n => some (n, true)
  | c :: rest, n =>
    if 36 ≤ digitVal 36 c then none
    else if base ≤ digitVal 36 c then none
    else if maxUint64 / base + 1 ≤ n then some (maxUint64, false)
    else if maxUint64 < n * base + digitVal 36 c then some (maxUint64, false)
    else parseUintLoop base rest (n * base + digitVal 36 c)

/-- The function `strconv.ParseUint(s, base, 64)` for `2 ≤ base ≤ 36`: the
value and the error, as Go returns them. -/
def ParseUint (s : String) (base : Nat) : Nat × Option Error :=
  if s.data = [] then (0, some (.errSyntax "ParseUint" s))
  else
    match parseUintLoop base s.data 0 with
    | none => (0, some (.errSyntax "ParseUint" s))
    | some (n, false) => (n, some (.errRange "ParseUint" s))
    | some (n, true) => (n, none)

/-- Modelled from the spec: `utils.HasHexPrefix`, which is not among the files;
the wire format of a number starts with `0x`. -/
def HasHexPrefix (str : String) : Bool :=
  match str.data with
  | c0 :: c1 :: _ => decide (c0 = '0') && (decide (c1 = 'x') || decide (c1 = 'X'))
  | _ => false

/-- Modelled from the spec: `utils.RemoveHexPrefix`, which is not among the
files; it drops the `0x` a wire number starts with. -/
def RemoveHexPrefix (str : String) : String :=
  if HasHexPrefix str then ⟨str.data.drop 2⟩ else str

/-- Modelled from the spec: `utils.HexToUint64`, which is not among the files;
it decodes a hex wire number of at most 64 bits and rejects anything that is not
valid hex (`DecodeError`). -/
def HexToUint64 (hex : String) : Nat × Option Error :=
  ParseUint (RemoveHexPrefix hex) 16

/-! ## The types of `models`, `assets` and `ethereum` the client names -/

/-- Modelled from the spec: `models.TxReceipt`, whose declaration is not among
the files: status, block number, block hash and gas used; the block number is a
pointer, nil until the transaction is mined. -/
structure TxReceipt where
  Status : Nat
  BlockNumber : Option big.Int
  BlockHash : Hash
  GasUsed : Nat
  deriving DecidableEq

/-- The zero value `models.TxReceipt{}`. -/
def TxReceipt.zero : TxReceipt := ⟨0, none, Hash.zero, 0⟩

/-- Modelled from the spec: a receipt that carries no block is the receipt of a
transaction not mined yet: the receipt is absent. -/
def TxReceipt.absent (r : TxReceipt) : Bool :=
  r.BlockNumber.isNone && decide (r.BlockHash = Hash.zero)

/-- Modelled from the spec: `models.BlockHeader`, whose declaration is not among
the files: number, hash, parent hash and timestamp. -/
structure BlockHeader where
  Number : big.Int
  ParentHash : Hash
  Time : big.Int
  Hash : Hash
  deriving DecidableEq

/-- The zero value of `models.BlockHeader`. -/
def BlockHeader.zero : BlockHeader := ⟨big.Int.new, Hash.zero, big.Int.new, Hash.zero⟩

/-- Modelled from the spec: `models.Log`, whose declaration is not among the
files: address, topics, data and the block and transaction it belongs to. -/
structure Log where
  Topics : List Hash
  Data : List Byte
  BlockNumber : Nat
  TxHash : Hash
  Address : Address
  deriving DecidableEq

/-- The type `ethereum.FilterQuery` of go-ethereum. -/
structure FilterQuery where
  FromBlock : Option big.Int
  ToBlock : Option big.Int
  Addresses : List Address
  Topics : List (List Hash)
  deriving DecidableEq

/-- The type `models.Big`, a `big.Int` with its own JSON form. -/
structure Big where
  ToInt : big.Int
  deriving DecidableEq

/-- The zero value of `models.Big`. -/
def Big.zero : Big := ⟨big.Int.new⟩

/-- The method `(*big.Int).Uint64`: the low 64 bits of the magnitude. -/
def big.Int.Uint64 (x : big.Int) : Nat := x.abs % 2 ^ 64

/-- Modelled from the spec: `assets.Eth`, whose declaration is not among the
files: an amount of Ether held as its number of wei, the same `big.Int` under
another type name, so that converting a pointer between the two keeps the
number. -/
structure Eth where
  ToInt : big.Int
  deriving DecidableEq

/-- Modelled from the spec: `assets.NewEth(w)`, the amount of `w` wei. -/
def NewEth (w : ℤ) : Eth := ⟨big.NewInt w⟩

/-- A handle `models.EthSubscription` the transport hands out. -/
structure EthSubscription where
  id : Nat
  deriving DecidableEq

/-- The struct `callArgs`: `To` is the address of the ERC contract, `Data` the
message sent to the contract. -/
structure callArgs where
  To : Address
  Data : List Byte
  deriving DecidableEq

/-- A Go value passed as `interface{}`, with its dynamic type: the kinds of
value the client passes to the transport, a pointer to a `callArgs` (which is
not a `callArgs`), and nil.  `filterArg q` is the value `utils.ToFilterArg(q)`. -/
inductive Any where
  | nil
  | string (s : String)
  | bool (b : Bool)
  | callArgs (c : callArgs)
  | callArgsPtr (c : callArgs)
  | filterArg (q : FilterQuery)
  deriving DecidableEq

/-- A Go channel the transport delivers a subscription to. -/
inductive Chan where
  | logs (id : Nat)
  | heads (id : Nat)
  deriving DecidableEq

/-! ## Call payloads: `common.FromHex`, `models.FunctionSelector`, `utils.ConcatBytes` -/

/-- The value of a hexadecimal digit as `encoding/hex` reads it, `none` for any
other byte. -/
def fromHexChar (c : Char) : Option Nat :=
  if '0'.toNat ≤ c.toNat ∧ c.toNat ≤ '9'.toNat then some (c.toNat - '0'.toNat)
  else if 'a'.toNat ≤ c.toNat ∧ c.toNat ≤ 'f'.toNat then some (c.toNat - 'a'.toNat + 10)
  else if 'A'.toNat ≤ c.toNat ∧ c.toNat ≤ 'F'.toNat then some (c.toNat - 'A'.toNat + 10)
  else none

/-- The function `hex.DecodeString` as `common.Hex2Bytes` uses it (the error is
dropped): the bytes decoded before the first byte that is no hex digit. -/
def Hex2Bytes : List Char → List Byte
  | c0 :: c1 :: rest =>
    match fromHexChar c0, fromHexChar c1 with
    | some h, some l => Fin.ofNat (h * 16 + l) :: Hex2Bytes rest
    | _, _ => []
  | _ => []

/-- The function `common.FromHex`: an optional `0x` is dropped and a string of
odd length gets a leading `0`. -/
def FromHex (s : String) : List Byte :=
  let cs := if HasHexPrefix s then s.data.drop 2 else s.data
  Hex2Bytes (if cs.length % 2 = 1 then '0' :: cs else cs)

/-- Modelled from the spec: `models.FunctionSelectorLength`, the 4 bytes of a
selector. -/
def FunctionSelectorLength : Nat := 4

/-- Modelled from the spec: `models.FunctionSelector`, whose declaration is not
among the files: the first 4 bytes of a call's encoded method identifier. -/
structure FunctionSelector where
  bytes : List Byte
  deriving DecidableEq

/-- Modelled from the spec: `models.HexToFunctionSelector`, which is not among
the files: the first 4 bytes of the method identifier written in hex. -/
def HexToFunctionSelector (s : String) : FunctionSelector :=
  ⟨(FromHex s).take FunctionSelectorLength⟩

/-- The method `FunctionSelector.Bytes`. -/
def FunctionSelector.Bytes (f : FunctionSelector) : List Byte := f.bytes

/-- Modelled from the spec: `utils.ConcatBytes`, which is not among the files:
the concatenation of the byte slices. -/
def ConcatBytes (bufs : List (List Byte)) : List Byte := bufs.flatten

/-- Modelled from the spec: `utils.EVMWordByteLen`, the fixed word width of 32
bytes. -/
def EVMWordByteLen : Nat := 32

/-! ## The transport -/

/-- The type of the variable a call decodes its result into. -/
inductive ResultKind where
  | string
  | hash
  | txReceipt
  | blockHeader
  | logs
  | big
  deriving DecidableEq

/-- The Go type behind a `ResultKind`. -/
@[reducible] def ResultKind.type : ResultKind → Type
  | .string => String
  | .hash => Hash
  | .txReceipt => TxReceipt
  | .blockHeader => BlockHeader
  | .logs => List Log
  | .big => Big

/-- What one `Call` does as seen by its caller: the value it stored through the
`result` pointer (`none` when it left the variable unwritten, as for a JSON
`null` result) and the error it returned (`none` for nil). -/
structure Reply (ρ : Type) where
  written : Option ρ
  err : Option Error

/-- The interface `CallerSubscriber`, over a transport whose state is `σ`.
`Call` performs a JSON-RPC call with the given arguments and `EthSubscribe`
registers a subscription (it returns the subscription and the error). -/
structure CallerSubscriber (σ : Type) where
  Call : (k : ResultKind) → (method : String) → (args : List Any) → σ → Reply k.type × σ
  EthSubscribe : (channel : Chan) → (args : List Any) → σ →
    (Option EthSubscription × Option Error) × σ

/-- The struct `EthClient`: it holds the `CallerSubscriber` interface for the
Ethereum blockchain. -/
structure EthClient (σ : Type) extends CallerSubscriber σ

/-- The string forms go-ethereum gives an address (`Address.Hex`, the EIP-55
checksummed hex) and a hash (`Hash.String`); the client only passes them on. -/
structure Common where
  AddressHex : Address → String
  HashString : Hash → String

/-! ## `EthClient` -/

namespace EthClient

variable {σ : Type}

/-- GetNonce returns the nonce (transaction count) for a given address. -/
def GetNonce (cm : Common) (eth : EthClient σ) (address : Address) (s : σ) :
    (Nat × Option Error) × σ :=
  let result := ""
  let r := eth.Call .string "eth_getTransactionCount"
    [.string (cm.AddressHex address), .string "latest"] s
  let result := r.1.written.getD result
  match r.1.err with
  | some err => ((0, some err), r.2)
  | none => (HexToUint64 result, r.2)

/-- GetWeiBalance returns the balance of the given address in Wei. -/
def GetWeiBalance (cm : Common) (eth : EthClient σ) (address : Address) (s : σ) :
    (big.Int × Option Error) × σ :=
  let result := ""
  let numWeiBigInt := big.Int.new
  let r := eth.Call .string "eth_getBalance"
    [.string (cm.AddressHex address), .string "latest"] s
  let result := r.1.written.getD result
  match r.1.err with
  | some err => ((numWeiBigInt, some err), r.2)
  | none =>
    let numWeiBigInt := (numWeiBigInt.SetString result 0).1
    ((numWeiBigInt, none), r.2)

/-- GetEthBalance returns the balance of the given addresses in Ether. -/
def GetEthBalance (cm : Common) (eth : EthClient σ) (address : Address) (s : σ) :
    (Eth × Option Error) × σ :=
  let r := GetWeiBalance cm eth address s
  match r.1.2 with
  | some err => ((NewEth 0, some err), r.2)
  | none => ((⟨r.1.1⟩, none), r.2)

/-- ExtractERC20BalanceTargetAddress returns the address whose balance is being
queried by the message in the given call to an ERC20 contract, which is
interpreted as a callArgs.  The result is `none` when the slice expression
`message[len(message)-20:]` is out of range and the function panics. -/
def ExtractERC20BalanceTargetAddress (args : Any) : Option (Address × Bool) :=
  match args with
  | .callArgs call =>
    let message := call.Data
    if message.length < 20 then none
    else some (BytesToAddress (message.drop (message.length - 20)), true)
  | _ => some (Address.zero, false)

/-- GetERC20Balance returns the balance of the given address for the token
contract address. -/
def GetERC20Balance (eth : EthClient σ) (address contractAddress : Address) (s : σ) :
    (big.Int × Option Error) × σ :=
  let result := ""
  let numLinkBigInt := big.Int.new
  let functionSelector := HexToFunctionSelector "0x70a08231"
  let data := ConcatBytes
    [functionSelector.Bytes, LeftPadBytes address.Bytes EVMWordByteLen]
  let args : callArgs := { To := contractAddress, Data := data }
  let r := eth.Call .string "eth_call" [.callArgs args, .string "latest"] s
  let result := r.1.written.getD result
  match r.1.err with
  | some err => ((numLinkBigInt, some err), r.2)
  | none =>
    let numLinkBigInt := (numLinkBigInt.SetString result 0).1
    ((numLinkBigInt, none), r.2)

/-- SendRawTx sends a signed transaction to the transaction pool. -/
def SendRawTx (eth : EthClient σ) (hex : String) (s : σ) : (Hash × Option Error) × σ :=
  let result := Hash.zero
  let r := eth.Call .hash "eth_sendRawTransaction" [.string hex] s
  ((r.1.written.getD result, r.1.err), r.2)

/-- GetTxReceipt returns the transaction receipt for the given transaction
hash.  The pointer returned is never nil: the first component is the receipt it
points to. -/
def GetTxReceipt (cm : Common) (eth : EthClient σ) (hash : Hash) (s : σ) :
    (TxReceipt × Option Error) × σ :=
  let receipt := TxReceipt.zero
  let r := eth.Call .txReceipt "eth_getTransactionReceipt" [.string (cm.HashString hash)] s
  ((r.1.written.getD receipt, r.1.err), r.2)

/-- GetBlockNumber returns the block number of the chain head. -/
def GetBlockNumber (eth : EthClient σ) (s : σ) : (Nat × Option Error) × σ :=
  let result := ""
  let r := eth.Call .string "eth_blockNumber" [] s
  let result := r.1.written.getD result
  match r.1.err with
  | some err => ((0, some err), r.2)
  | none => (HexToUint64 result, r.2)

/-- GetBlockByNumber returns the block for the passed hex, or "latest",
"earliest", "pending". -/
def GetBlockByNumber (eth : EthClient σ) (hex : String) (s : σ) :
    (BlockHeader × Option Error) × σ :=
  let header := BlockHeader.zero
  let r := eth.Call .blockHeader "eth_getBlockByNumber" [.string hex, .bool false] s
  ((r.1.written.getD header, r.1.err), r.2)

/-- GetLogs returns all logs that respect the passed filter query. -/
def GetLogs (eth : EthClient σ) (q : FilterQuery) (s : σ) : (List Log × Option Error) × σ :=
  let results : List Log := []
  let r := eth.Call .logs "eth_getLogs" [.filterArg q] s
  ((r.1.written.getD results, r.1.err), r.2)

/-- GetChainID returns the ethereum ChainID. -/
def GetChainID (eth : EthClient σ) (s : σ) : (Nat × Option Error) × σ :=
  let intermediary := Big.zero
  let r := eth.Call .big "eth_chainId" [] s
  (((r.1.written.getD intermediary).ToInt.Uint64, r.1.err), r.2)

/-- SubscribeToLogs registers a subscription for push notifications of logs
from a given address. -/
def SubscribeToLogs (eth : EthClient σ) (channel : Chan) (q : FilterQuery) (s : σ) :
    (Option EthSubscription × Option Error) × σ :=
  let r := eth.EthSubscribe channel [.string "logs", .filterArg q] s
  ((r.1.1, r.1.2), r.2)

/-- SubscribeToNewHeads registers a subscription for push notifications of new
blocks. -/
def SubscribeToNewHeads (eth : EthClient σ) (channel : Chan) (s : σ) :
    (Option EthSubscription × Option Error) × σ :=
  let r := eth.EthSubscribe channel [.string "newHeads"] s
  ((r.1.1, r.1.2), r.2)

end EthClient

/-! ## Observing the calls an operation issues -/

/-- One use of the transport: a `Call` with its method and arguments, or an
`EthSubscribe` with its channel and arguments. -/
inductive Request where
  | call (method : String) (args : List Any)
  | subscribe (channel : Chan) (args : List Any)
  deriving DecidableEq

/-- The transport `t` with a log: it behaves as `t` does and appends every
request it receives to the log kept next to the state of `t`. -/
def recording {σ : Type} (t : CallerSubscriber σ) : EthClient (σ × List Request) where
  Call k method args s :=
    ((t.Call k method args s.1).1, ((t.Call k method args s.1).2, s.2 ++ [.call method args]))
  EthSubscribe channel args s :=
    ((t.EthSubscribe channel args s.1).1,
      ((t.EthSubscribe channel args s.1).2, s.2 ++ [.subscribe channel args]))

/-- A transport without state that answers every call for a string with `resp`
and no error, leaves every other result unwritten, and refuses to subscribe. -/
def answering (resp : String) : CallerSubscriber Unit where
  Call k _ _ s :=
    match k with
    | .string => (⟨some resp, none⟩, s)
    | _ => (⟨none, none⟩, s)
  EthSubscribe _ _ s := ((none, some (.rpc "no subscriptions")), s)

/-- A transport without state on which every call and every subscription fails
with the error `e`, writing nothing. -/
def failing (e : Error) : CallerSubscriber Unit where
  Call _ _ _ s := (⟨none, some e⟩, s)
  EthSubscribe _ _ s := ((none, some e), s)

/-- A stand-in for the string forms of go-ethereum: plain lower-case hex. -/
def plainHex : Common where
  AddressHex a := ⟨'0' :: 'x' :: (a.bytes.map fun b =>
    [Nat.digitChar (b.val / 16), Nat.digitChar (b.val % 16)]).flatten⟩
  HashString h := ⟨'0' :: 'x' :: (h.bytes.map fun b =>
    [Nat.digitChar (b.val / 16), Nat.digitChar (b.val % 16)]).flatten⟩

/-! ## The queued run channel -/

/-- The error of a queue operation. -/
inductive QueueError where
  | QueueClosed
  deriving DecidableEq

/-- Modelled from the spec: `QueuedRunChannel`, which is not among the files
(only its tests are): a mailbox holding the events sent and not yet received,
oldest first, and whether it has been closed. -/
structure QueuedRunChannel (ε : Type) where
  queue : List ε
  closed : Bool

namespace QueuedRunChannel

variable {ε : Type}

/-- Modelled from the spec: `NewQueuedRunChannel`, an open and empty queue. -/
def NewQueuedRunChannel : QueuedRunChannel ε := ⟨[], false⟩

/-- Modelled from the spec: `Send(event)` enqueues `event`, and fails with
`QueueClosed` if the queue has been closed. -/
def Send (rq : QueuedRunChannel ε) (event : ε) : Option QueueError × QueuedRunChannel ε :=
  if rq.closed then (some .QueueClosed, rq)
  else (none, { rq with queue := rq.queue ++ [event] })

/-- Modelled from the spec: one read of the stream of `Receive`: the oldest
buffered event, or `none` when nothing is buffered (after `Close`, the end of the
stream). -/
def Receive (rq : QueuedRunChannel ε) : Option ε × QueuedRunChannel ε :=
  match rq.queue with
  | [] => (none, rq)
  | e :: rest => (some e, { rq with queue := rest })

/-- Modelled from the spec: `Close()` is idempotent, and closing a closed queue
is a no-op. -/
def Close (rq : QueuedRunChannel ε) : QueuedRunChannel ε :=
  if rq.closed then rq else { rq with closed := true }

/-- An operation on the queue. -/
inductive Op (ε : Type) where
  | send (event : ε)
  | receive
  | close

/-- The queue after one operation. -/
def step (rq : QueuedRunChannel ε) : Op ε → QueuedRunChannel ε
  | .send event => (rq.Send event).2
  | .receive => rq.Receive.2
  | .close => rq.Close

/-- The queue after a sequence of operations, first to last. -/
def run (rq : QueuedRunChannel ε) (ops : List (Op ε)) : QueuedRunChannel ε :=
  ops.foldl step rq

end QueuedRunChannel

/-! ## The wire form of a number -/

/-- The function `hexutil.EncodeBig` of go-ethereum on a non-negative integer:
`0x` and the hexadecimal digits of `n`, lower case, without leading zeros
(`0x0` for zero). -/
def EncodeBig (n : Nat) : String := ⟨'0' :: 'x' :: Nat.toDigits 16 n⟩

/-! ## Properties of the payload helpers -/

theorem Address.ext_bytes {a b : Address} (h : a.bytes = b.bytes) : a = b := by
  cases a; cases b; cases h; rfl

theorem balanceOf_selector :
    (HexToFunctionSelector "0x70a08231").Bytes = [0x70, 0xa0, 0x82, 0x31] := by
  decide

theorem LeftPadBytes_address (a : Address) :
    LeftPadBytes a.Bytes EVMWordByteLen = List.replicate 12 0 ++ a.bytes := by
  simp [LeftPadBytes, Address.Bytes, EVMWordByteLen, a.size]

theorem erc20_data (a : Address) :
    ConcatBytes [(HexToFunctionSelector "0x70a08231").Bytes,
      LeftPadBytes a.Bytes EVMWordByteLen]
      = [0x70, 0xa0, 0x82, 0x31] ++ List.replicate 12 0 ++ a.bytes := by
  rw [balanceOf_selector, LeftPadBytes_address]
  simp [ConcatBytes]

theorem BytesToAddress_bytes (a : Address) : BytesToAddress a.bytes = a := by
  apply Address.ext_bytes
  simp [BytesToAddress, a.size]

theorem BytesToAddress_of_length {b : List Byte} (h : b.length = 20) :
    (BytesToAddress b).bytes = b := by
  simp [BytesToAddress, h]

/-! ## The call of `GetERC20Balance` -/

theorem GetERC20Balance_state {σ : Type} (eth : EthClient σ) (a c : Address) (s : σ) :
    (EthClient.GetERC20Balance eth a c s).2
      = (eth.Call .string "eth_call"
          [.callArgs ⟨c, [0x70, 0xa0, 0x82, 0x31] ++ List.replicate 12 0 ++ a.bytes⟩,
            .string "latest"] s).2 := by
  unfold EthClient.GetERC20Balance
  simp only [erc20_data]
  split <;> rfl

/-- C2: for every address `a` and contract address `c`, `GetERC20Balance` issues
exactly one transport call, of method `eth_call` with block tag `latest`, whose
call arguments have `To = c` and `Data` equal to the selector bytes `70 a0 82 31`
followed by `a` left-padded with zero bytes to 32 bytes: 36 bytes, 4 of
selector, 12 zero, then the 20 bytes of `a`.  The transport is left in the state
that one call leaves it in. -/
theorem GetERC20Balance_single_eth_call {σ : Type} (t : CallerSubscriber σ)
    (a c : Address) (s : σ) (log : List Request) :
    (EthClient.GetERC20Balance (recording t) a c (s, log)).2.2
        = log ++ [.call "eth_call"
            [.callArgs ⟨c, [0x70, 0xa0, 0x82, 0x31] ++ LeftPadBytes a.Bytes 32⟩,
              .string "latest"]]
      ∧ (EthClient.GetERC20Balance (recording t) a c (s, log)).2.1
        = (t.Call .string "eth_call"
            [.callArgs ⟨c, [0x70, 0xa0, 0x82, 0x31] ++ LeftPadBytes a.Bytes 32⟩,
              .string "latest"] s).2
      ∧ [0x70, 0xa0, 0x82, 0x31] ++ LeftPadBytes a.Bytes 32
        = [0x70, 0xa0, 0x82, 0x31] ++ List.replicate 12 0 ++ a.bytes
      ∧ ([0x70, 0xa0, 0x82, 0x31] ++ LeftPadBytes a.Bytes 32).length = 36 := by
  have hp : LeftPadBytes a.Bytes 32 = List.replicate 12 0 ++ a.bytes :=
    LeftPadBytes_address a
  rw [GetERC20Balance_state, hp]
  refine ⟨rfl, rfl, by simp, by simp [a.size]⟩

/-- C3: for every address `a` (leading zero bytes or not) and every contract
address `c`, the single request `GetERC20Balance a c` sends is an `eth_call`
whose first argument is a `callArgs` with the trailing 20 bytes of `Data` equal
to `a`, and `ExtractERC20BalanceTargetAddress` of that argument is `(a, true)`. -/
theorem GetERC20Balance_target_address_extracted {σ : Type} (t : CallerSubscriber σ)
    (a c : Address) (s : σ) (log : List Request) :
    ∃ data : List Byte,
      (EthClient.GetERC20Balance (recording t) a c (s, log)).2.2
          = log ++ [.call "eth_call" [.callArgs ⟨c, data⟩, .string "latest"]]
        ∧ data.drop (data.length - 20) = a.bytes
        ∧ EthClient.ExtractERC20BalanceTargetAddress (.callArgs ⟨c, data⟩) = some (a, true) := by
  refine ⟨[0x70, 0xa0, 0x82, 0x31] ++ List.replicate 12 0 ++ a.bytes, ?_, ?_, ?_⟩
  · rw [GetERC20Balance_state]; rfl
  · simp [a.size]
  · have hlen : ([0x70, 0xa0, 0x82, 0x31] ++ List.replicate 12 (0 : Byte) ++ a.bytes).length
        = 36 := by simp [a.size]
    have hdrop : ([0x70, 0xa0, 0x82, 0x31] ++ List.replicate 12 (0 : Byte) ++ a.bytes).drop
        (36 - 20) = a.bytes := by simp
    simp only [EthClient.ExtractERC20BalanceTargetAddress, hlen]
    rw [if_neg (by omega), hdrop, BytesToAddress_bytes]

/-! ## `ExtractERC20BalanceTargetAddress` -/

/-- C10: `ExtractERC20BalanceTargetAddress` returns `(zero address, false)` for
every argument that is not a `callArgs` value; for every `callArgs` whose `Data`
has at least 20 bytes it returns the address made of the last 20 bytes of
`Data`, and `true`; and it has no result (the slice start is negative and the
function panics) exactly on the `callArgs` values whose `Data` has fewer than
20 bytes. -/
theorem ExtractERC20BalanceTargetAddress_cases :
    (∀ args : Any, (∀ call, args ≠ .callArgs call) →
        EthClient.ExtractERC20BalanceTargetAddress args = some (Address.zero, false))
    ∧ (∀ call : callArgs, 20 ≤ call.Data.length →
        ∃ target : Address,
          EthClient.ExtractERC20BalanceTargetAddress (.callArgs call) = some (target, true)
          ∧ target.bytes = call.Data.drop (call.Data.length - 20))
    ∧ (∀ args : Any, EthClient.ExtractERC20BalanceTargetAddress args = none ↔
        ∃ call, args = .callArgs call ∧ call.Data.length < 20) := by
  refine ⟨?_, ?_, ?_⟩
  · intro args h
    cases args with
    | callArgs call => exact absurd rfl (h call)
    | _ => rfl
  · intro call h
    refine ⟨BytesToAddress (call.Data.drop (call.Data.length - 20)), ?_, ?_⟩
    · simp only [EthClient.ExtractERC20BalanceTargetAddress]
      rw [if_neg (by omega)]
    · apply BytesToAddress_of_length
      simp only [List.length_drop]
      omega
  · intro args
    cases args with
    | callArgs call =>
      simp only [EthClient.ExtractERC20BalanceTargetAddress]
      constructor
      · intro h
        by_cases hlt : call.Data.length < 20
        · exact ⟨call, rfl, hlt⟩
        · rw [if_neg hlt] at h; cases h
      · rintro ⟨call2, heq, hlt⟩
        cases heq
        rw [if_pos hlt]
    | _ =>
      simp [EthClient.ExtractERC20BalanceTargetAddress]

/-- C10, at concrete inputs: a string is no `callArgs`, a 20-byte message gives
its bytes back, and a 3-byte message has no result. -/
theorem ExtractERC20BalanceTargetAddress_cases_witness :
    EthClient.ExtractERC20BalanceTargetAddress (.string "x") = some (Address.zero, false)
    ∧ (∃ target : Address,
        EthClient.ExtractERC20BalanceTargetAddress
            (.callArgs ⟨Address.zero, List.replicate 20 7⟩) = some (target, true)
        ∧ target.bytes = (List.replicate 20 (7 : Byte)).drop
            ((List.replicate 20 (7 : Byte)).length - 20))
    ∧ (EthClient.ExtractERC20BalanceTargetAddress (.callArgs ⟨Address.zero, [1, 2, 3]⟩) = none ↔
        ∃ call, Any.callArgs ⟨Address.zero, [1, 2, 3]⟩ = .callArgs call
          ∧ call.Data.length < 20) :=
  ⟨ExtractERC20BalanceTargetAddress_cases.1 (.string "x") (fun _ h => by cases h),
    ExtractERC20BalanceTargetAddress_cases.2.1 ⟨Address.zero, List.replicate 20 7⟩ (by decide),
    ExtractERC20BalanceTargetAddress_cases.2.2 (.callArgs ⟨Address.zero, [1, 2, 3]⟩)⟩

/-! ## The queued run channel after `Close` -/

theorem QueuedRunChannel.step_closed {ε : Type} (rq : QueuedRunChannel ε) (op : Op ε)
    (h : rq.closed = true) : (rq.step op).closed = true := by
  cases op with
  | send event => simp [step, Send, h]
  | receive =>
    simp only [step, Receive]
    split <;> simp [h]
  | close => simp [step, Close, h]

theorem QueuedRunChannel.run_closed {ε : Type} (ops : List (Op ε)) :
    ∀ rq : QueuedRunChannel ε, rq.closed = true → (rq.run ops).closed = true := by
  induction ops with
  | nil => intro rq h; exact h
  | cons op ops ih =>
    intro rq h
    exact ih (rq.step op) (step_closed rq op h)

theorem QueuedRunChannel.tests_hold :
    ((NewQueuedRunChannel : QueuedRunChannel String).Close.Send "first").1
        = some .QueueClosed
    ∧ ((NewQueuedRunChannel : QueuedRunChannel String).Send "first").1 = none
    ∧ (((NewQueuedRunChannel : QueuedRunChannel String).run
          [.send "whatever", .send "whatever", .receive, .receive, .close]).Receive).1
        = none := by
  decide

/-- C8: for every queue, whatever was done to it before, and every event: once
`Close` has been called, whatever operations follow (more calls of `Close`
among them), `Send` returns the error `QueueClosed` and leaves the queue, and so
what it holds, as it was. -/
theorem QueuedRunChannel.Send_after_Close {ε : Type} (rq : QueuedRunChannel ε)
    (later : List (Op ε)) (event : ε) :
    (rq.Close.run later).Send event = (some .QueueClosed, rq.Close.run later) := by
  have hc : rq.Close.closed = true := by
    unfold Close
    split
    · assumption
    · rfl
  have h := run_closed later rq.Close hc
  simp [Send, h]

/-! ## Errors of the transport -/

theorem GetWeiBalance_err {σ : Type} (cm : Common) (eth : EthClient σ) (a : Address) (s : σ) :
    (EthClient.GetWeiBalance cm eth a s).1.2
      = (eth.Call .string "eth_getBalance"
          [.string (cm.AddressHex a), .string "latest"] s).1.err := by
  unfold EthClient.GetWeiBalance
  dsimp only
  split <;> simp [*]

theorem GetWeiBalance_state {σ : Type} (cm : Common) (eth : EthClient σ) (a : Address) (s : σ) :
    (EthClient.GetWeiBalance cm eth a s).2
      = (eth.Call .string "eth_getBalance"
          [.string (cm.AddressHex a), .string "latest"] s).2 := by
  unfold EthClient.GetWeiBalance
  dsimp only
  split <;> rfl

/-- C6: for every operation of `EthClient` and every input, when the call of the
transport the operation makes (`Call`, or `EthSubscribe` for the two
subscriptions) returns an error `e`, the operation returns exactly `e` as its
error. -/
theorem transport_error_returned_unchanged {σ : Type} (cm : Common) (eth : EthClient σ)
    (s : σ) (e : Error) :
    (∀ a, (eth.Call .string "eth_getTransactionCount"
          [.string (cm.AddressHex a), .string "latest"] s).1.err = some e →
        (EthClient.GetNonce cm eth a s).1.2 = some e)
    ∧ (∀ a, (eth.Call .string "eth_getBalance"
          [.string (cm.AddressHex a), .string "latest"] s).1.err = some e →
        (EthClient.GetWeiBalance cm eth a s).1.2 = some e)
    ∧ (∀ a, (eth.Call .string "eth_getBalance"
          [.string (cm.AddressHex a), .string "latest"] s).1.err = some e →
        (EthClient.GetEthBalance cm eth a s).1.2 = some e)
    ∧ (∀ a c, (eth.Call .string "eth_call"
          [.callArgs ⟨c, [0x70, 0xa0, 0x82, 0x31] ++ List.replicate 12 0 ++ a.bytes⟩,
            .string "latest"] s).1.err = some e →
        (EthClient.GetERC20Balance eth a c s).1.2 = some e)
    ∧ (∀ hex, (eth.Call .hash "eth_sendRawTransaction" [.string hex] s).1.err = some e →
        (EthClient.SendRawTx eth hex s).1.2 = some e)
    ∧ (∀ h, (eth.Call .txReceipt "eth_getTransactionReceipt"
          [.string (cm.HashString h)] s).1.err = some e →
        (EthClient.GetTxReceipt cm eth h s).1.2 = some e)
    ∧ ((eth.Call .string "eth_blockNumber" [] s).1.err = some e →
        (EthClient.GetBlockNumber eth s).1.2 = some e)
    ∧ (∀ hex, (eth.Call .blockHeader "eth_getBlockByNumber"
          [.string hex, .bool false] s).1.err = some e →
        (EthClient.GetBlockByNumber eth hex s).1.2 = some e)
    ∧ (∀ q, (eth.Call .logs "eth_getLogs" [.filterArg q] s).1.err = some e →
        (EthClient.GetLogs eth q s).1.2 = some e)
    ∧ ((eth.Call .big "eth_chainId" [] s).1.err = some e →
        (EthClient.GetChainID eth s).1.2 = some e)
    ∧ (∀ ch q, (eth.EthSubscribe ch [.string "logs", .filterArg q] s).1.2 = some e →
        (EthClient.SubscribeToLogs eth ch q s).1.2 = some e)
    ∧ (∀ ch, (eth.EthSubscribe ch [.string "newHeads"] s).1.2 = some e →
        (EthClient.SubscribeToNewHeads eth ch s).1.2 = some e) := by
  refine ⟨?_, ?_, ?_, ?_, ?_, ?_, ?_, ?_, ?_, ?_, ?_, ?_⟩
  · intro a h
    simp only [EthClient.GetNonce, h]
  · intro a h
    rw [GetWeiBalance_err, h]
  · intro a h
    have hw := GetWeiBalance_err cm eth a s
    rw [h] at hw
    simp only [EthClient.GetEthBalance, hw]
  · intro a c h
    unfold EthClient.GetERC20Balance
    simp only [erc20_data, h]
  · intro hex h
    exact h
  · intro hsh h
    exact h
  · intro h
    simp only [EthClient.GetBlockNumber, h]
  · intro hex h
    exact h
  · intro q h
    exact h
  · intro h
    exact h
  · intro ch q h
    exact h
  · intro ch h
    exact h

/-- C6, on the transport that fails every request with the error `down`: each
of the twelve operations returns that very error. -/
theorem transport_error_returned_unchanged_witness :
    (EthClient.GetNonce plainHex ⟨failing (.rpc "down")⟩ Address.zero ()).1.2
        = some (.rpc "down")
    ∧ (EthClient.GetWeiBalance plainHex ⟨failing (.rpc "down")⟩ Address.zero ()).1.2
        = some (.rpc "down")
    ∧ (EthClient.GetEthBalance plainHex ⟨failing (.rpc "down")⟩ Address.zero ()).1.2
        = some (.rpc "down")
    ∧ (EthClient.GetERC20Balance ⟨failing (.rpc "down")⟩ Address.zero Address.zero ()).1.2
        = some (.rpc "down")
    ∧ (EthClient.SendRawTx ⟨failing (.rpc "down")⟩ "0x00" ()).1.2 = some (.rpc "down")
    ∧ (EthClient.GetTxReceipt plainHex ⟨failing (.rpc "down")⟩ Hash.zero ()).1.2
        = some (.rpc "down")
    ∧ (EthClient.GetBlockNumber ⟨failing (.rpc "down")⟩ ()).1.2 = some (.rpc "down")
    ∧ (EthClient.GetBlockByNumber ⟨failing (.rpc "down")⟩ "latest" ()).1.2
        = some (.rpc "down")
    ∧ (EthClient.GetLogs ⟨failing (.rpc "down")⟩ ⟨none, none, [], []⟩ ()).1.2
        = some (.rpc "down")
    ∧ (EthClient.GetChainID ⟨failing (.rpc "down")⟩ ()).1.2 = some (.rpc "down")
    ∧ (EthClient.SubscribeToLogs ⟨failing (.rpc "down")⟩ (.logs 0) ⟨none, none, [], []⟩ ()).1.2
        = some (.rpc "down")
    ∧ (EthClient.SubscribeToNewHeads ⟨failing (.rpc "down")⟩ (.heads 0) ()).1.2
        = some (.rpc "down") :=
  have h := transport_error_returned_unchanged plainHex ⟨failing (.rpc "down")⟩ ()
    (.rpc "down")
  ⟨h.1 Address.zero rfl, h.2.1 Address.zero rfl, h.2.2.1 Address.zero rfl,
    h.2.2.2.1 Address.zero Address.zero rfl, h.2.2.2.2.1 "0x00" rfl,
    h.2.2.2.2.2.1 Hash.zero rfl, h.2.2.2.2.2.2.1 rfl, h.2.2.2.2.2.2.2.1 "latest" rfl,
    h.2.2.2.2.2.2.2.2.1 ⟨none, none, [], []⟩ rfl, h.2.2.2.2.2.2.2.2.2.1 rfl,
    h.2.2.2.2.2.2.2.2.2.2.1 (.logs 0) ⟨none, none, [], []⟩ rfl,
    h.2.2.2.2.2.2.2.2.2.2.2 (.heads 0) rfl⟩

/-! ## Receipts -/

/-- C7: for every transaction hash, when the call `eth_getTransactionReceipt`
succeeds and leaves the result unwritten (a null result), `GetTxReceipt`
returns no error and the empty receipt, which reports the receipt as absent;
when the call of another run fails with `e`, `GetTxReceipt` returns `e`, so the
two outcomes differ. -/
theorem GetTxReceipt_null_is_absent_not_error {σ τ : Type} (cm : Common)
    (eth : EthClient σ) (eth2 : EthClient τ) (h h2 : Hash) (s : σ) (s2 : τ) (e : Error)
    (hwritten : (eth.Call .txReceipt "eth_getTransactionReceipt"
        [.string (cm.HashString h)] s).1.written = none)
    (hnil : (eth.Call .txReceipt "eth_getTransactionReceipt"
        [.string (cm.HashString h)] s).1.err = none)
    (hfail : (eth2.Call .txReceipt "eth_getTransactionReceipt"
        [.string (cm.HashString h2)] s2).1.err = some e) :
    (EthClient.GetTxReceipt cm eth h s).1 = (TxReceipt.zero, none)
    ∧ (EthClient.GetTxReceipt cm eth h s).1.1.absent = true
    ∧ (EthClient.GetTxReceipt cm eth2 h2 s2).1.2 = some e
    ∧ (EthClient.GetTxReceipt cm eth h s).1 ≠ (EthClient.GetTxReceipt cm eth2 h2 s2).1 := by
  have h1 : (EthClient.GetTxReceipt cm eth h s).1 = (TxReceipt.zero, none) := by
    simp only [EthClient.GetTxReceipt, hwritten, hnil, Option.getD_none]
  have h3 : (EthClient.GetTxReceipt cm eth2 h2 s2).1.2 = some e := hfail
  refine ⟨h1, ?_, h3, ?_⟩
  · rw [h1]; decide
  · intro heq
    have := congrArg Prod.snd heq
    rw [h1, h3] at this
    cases this

/-- C7, on a transport that answers null and on one that is down. -/
theorem GetTxReceipt_null_is_absent_not_error_witness :
    (EthClient.GetTxReceipt plainHex ⟨answering "unused"⟩ Hash.zero ()).1 = (TxReceipt.zero, none)
    ∧ (EthClient.GetTxReceipt plainHex ⟨answering "unused"⟩ Hash.zero ()).1.1.absent = true
    ∧ (EthClient.GetTxReceipt plainHex ⟨failing (.rpc "down")⟩ Hash.zero ()).1.2
        = some (.rpc "down")
    ∧ (EthClient.GetTxReceipt plainHex ⟨answering "unused"⟩ Hash.zero ()).1
        ≠ (EthClient.GetTxReceipt plainHex ⟨failing (.rpc "down")⟩ Hash.zero ()).1 :=
  GetTxReceipt_null_is_absent_not_error plainHex ⟨answering "unused"⟩
    ⟨failing (.rpc "down")⟩ Hash.zero Hash.zero () () (.rpc "down") rfl rfl rfl

/-! ## Ether balances -/

/-- C9: for every address and every transport, `GetEthBalance` makes the call
`GetWeiBalance` makes and fails exactly when `GetWeiBalance` fails, with the
same error and the zero amount; when `GetWeiBalance` returns `w` wei without an
error, `GetEthBalance` returns without an error the Eth amount that holds
exactly `w` wei. -/
theorem GetEthBalance_as_GetWeiBalance {σ : Type} (cm : Common) (eth : EthClient σ)
    (a : Address) (s : σ) :
    (EthClient.GetEthBalance cm eth a s).2 = (EthClient.GetWeiBalance cm eth a s).2
    ∧ (EthClient.GetEthBalance cm eth a s).1.2 = (EthClient.GetWeiBalance cm eth a s).1.2
    ∧ (∀ e, (EthClient.GetWeiBalance cm eth a s).1.2 = some e →
        (EthClient.GetEthBalance cm eth a s).1 = (NewEth 0, some e)
        ∧ (NewEth 0).ToInt.toInt = 0)
    ∧ (∀ w, (EthClient.GetWeiBalance cm eth a s).1 = (w, none) →
        (EthClient.GetEthBalance cm eth a s).1.2 = none
        ∧ (EthClient.GetEthBalance cm eth a s).1.1.ToInt = w) := by
  refine ⟨?_, ?_, ?_, ?_⟩
  · unfold EthClient.GetEthBalance
    dsimp only
    split <;> rfl
  · unfold EthClient.GetEthBalance
    dsimp only
    split <;> simp [*]
  · intro e h
    refine ⟨?_, by decide⟩
    simp only [EthClient.GetEthBalance, h]
  · intro w h
    have h2 : (EthClient.GetWeiBalance cm eth a s).1.2 = none := by rw [h]
    have h1 : (EthClient.GetWeiBalance cm eth a s).1.1 = w := by rw [h]
    simp only [EthClient.GetEthBalance, h2, h1, and_self]

/-- C9, on a transport that is down and on one that answers `0x10`. -/
theorem GetEthBalance_as_GetWeiBalance_witness :
    ((EthClient.GetEthBalance plainHex ⟨failing (.rpc "down")⟩ Address.zero ()).1
        = (NewEth 0, some (.rpc "down"))
      ∧ (NewEth 0).ToInt.toInt = 0)
    ∧ ((EthClient.GetEthBalance plainHex ⟨answering "0x10"⟩ Address.zero ()).1.2 = none
      ∧ (EthClient.GetEthBalance plainHex ⟨answering "0x10"⟩ Address.zero ()).1.1.ToInt
        = ⟨false, 16⟩) :=
  ⟨(GetEthBalance_as_GetWeiBalance plainHex ⟨failing (.rpc "down")⟩ Address.zero ()).2.2.1
      (.rpc "down") rfl,
    (GetEthBalance_as_GetWeiBalance plainHex ⟨answering "0x10"⟩ Address.zero ()).2.2.2
      ⟨false, 16⟩ (by decide)⟩

/-! ## Decoding hexadecimal digits -/

theorem digitVal_16_eq_36 (c : Char) : digitVal 16 c = digitVal 36 c := by
  simp [digitVal, maxBaseSmall]

theorem digitVal_digitChar (k : Nat) (h : k < 16) :
    digitVal 16 (Nat.digitChar k) = k ∧ Nat.digitChar k ≠ '_' := by
  interval_cases k <;> decide

theorem toDigitsCore_append (b : Nat) (fuel : Nat) :
    ∀ (n : Nat) (ds : List Char),
      Nat.toDigitsCore b fuel n ds = Nat.toDigitsCore b fuel n [] ++ ds := by
  induction fuel with
  | zero => intro n ds; simp [Nat.toDigitsCore]
  | succ fuel ih =>
    intro n ds
    simp only [Nat.toDigitsCore]
    split
    · simp
    · rw [ih (n / b) (Nat.digitChar (n % b) :: ds), ih (n / b) [Nat.digitChar (n % b)]]
      simp

theorem toDigitsCore_digits (fuel : Nat) :
    ∀ n : Nat, ∀ c ∈ Nat.toDigitsCore 16 fuel n [], ∃ k, k < 16 ∧ c = Nat.digitChar k := by
  induction fuel with
  | zero => intro n c hc; simp [Nat.toDigitsCore] at hc
  | succ fuel ih =>
    intro n c hc
    simp only [Nat.toDigitsCore] at hc
    split at hc
    · simp only [List.mem_singleton] at hc
      exact ⟨n % 16, Nat.mod_lt _ (by decide), hc⟩
    · rw [toDigitsCore_append] at hc
      simp only [List.mem_append, List.mem_singleton] at hc
      rcases hc with hc | hc
      · exact ih _ c hc
      · exact ⟨n % 16, Nat.mod_lt _ (by decide), hc⟩

theorem toDigitsCore_value (fuel : Nat) :
    ∀ n : Nat, n < fuel →
      (Nat.toDigitsCore 16 fuel n []).foldl (fun z c => z * 16 + digitVal 16 c) 0 = n := by
  induction fuel with
  | zero => intro n h; omega
  | succ fuel ih =>
    intro n h
    simp only [Nat.toDigitsCore]
    split
    · rename_i h0
      have hlt : n < 16 := by
        rcases Nat.lt_or_ge n 16 with h1 | h1
        · exact h1
        · have : 0 < n / 16 := Nat.div_pos h1 (by decide)
          omega
      rw [Nat.mod_eq_of_lt hlt]
      simp [(digitVal_digitChar n hlt).1]
    · rename_i h0
      rw [toDigitsCore_append, List.foldl_append]
      have hdiv : n / 16 < fuel := by
        have : n / 16 < n := Nat.div_lt_self (by
          rcases Nat.eq_zero_or_pos n with h1 | h1
          · subst h1; simp at h0
          · exact h1) (by decide)
        omega
      rw [ih (n / 16) hdiv]
      simp [(digitVal_digitChar (n % 16) (Nat.mod_lt _ (by decide))).1]
      omega

theorem toDigits_value (n : Nat) :
    (Nat.toDigits 16 n).foldl (fun z c => z * 16 + digitVal 16 c) 0 = n :=
  toDigitsCore_value (n + 1) n (Nat.lt_succ_self n)

theorem toDigits_ne_nil (n : Nat) : Nat.toDigits 16 n ≠ [] := by
  simp only [Nat.toDigits, Nat.toDigitsCore]
  split
  · simp
  · rw [toDigitsCore_append]; simp

theorem toDigits_hex (n : Nat) :
    ∀ c ∈ Nat.toDigits 16 n, digitVal 16 c < 16 ∧ c ≠ '_' := by
  intro c hc
  obtain ⟨k, hk, rfl⟩ := toDigitsCore_digits (n + 1) n c hc
  have := digitVal_digitChar k hk
  exact ⟨by rw [this.1]; exact hk, this.2⟩

theorem scanLoop_digits (ds : List Char) :
    ∀ st : ScanState, (∀ c ∈ ds, digitVal 16 c < 16 ∧ c ≠ '_') →
      scanLoop 16 0 ds st
        = (⟨ds.foldl (fun z c => z * 16 + digitVal 16 c) st.z, st.count + ds.length,
            if ds = [] then st.prev else '0', st.invalSep⟩, []) := by
  induction ds with
  | nil => intro st _; simp [scanLoop]
  | cons c ds ih =>
    intro st h
    have hc := h c (List.mem_cons_self c ds)
    have hds : ∀ d ∈ ds, digitVal 16 d < 16 ∧ d ≠ '_' :=
      fun d hd => h d (List.mem_cons_of_mem c hd)
    simp only [scanLoop]
    rw [if_neg (by simp [hc.2]), if_neg (by omega), ih _ hds]
    simp only [List.foldl_cons, List.length_cons, Prod.mk.injEq, and_true,
      ScanState.mk.injEq, true_and]
    refine ⟨by omega, ?_⟩
    split <;> simp

theorem natScan_EncodeBig (n : Nat) :
    natScan (EncodeBig n).data 0 = ⟨n, 16, (Nat.toDigits 16 n).length, none, []⟩ := by
  have hloop := scanLoop_digits (Nat.toDigits 16 n) ⟨0, 0, '0', false⟩ (toDigits_hex n)
  have hne := toDigits_ne_nil n
  have hlen : (Nat.toDigits 16 n).length ≠ 0 := by
    intro h; exact hne (List.length_eq_zero.mp h)
  simp only [EncodeBig, natScan]
  simp only [if_true, hloop, toDigits_value, scanFinish]
  simp [hne, hlen]

theorem SetString_EncodeBig (z : big.Int) (n : Nat) :
    z.SetString (EncodeBig n) 0 = (⟨false, n⟩, true) := by
  have h := natScan_EncodeBig n
  have hd : (EncodeBig n).data = '0' :: 'x' :: Nat.toDigits 16 n := rfl
  rw [hd] at h
  simp only [big.Int.SetString, hd]
  rw [if_neg (by decide), h]
  simp

theorem foldl_digits_ge (ds : List Char) :
    ∀ acc : Nat, acc ≤ ds.foldl (fun z c => z * 16 + digitVal 16 c) acc := by
  induction ds with
  | nil => intro acc; exact Nat.le_refl acc
  | cons c ds ih =>
    intro acc
    have := ih (acc * 16 + digitVal 16 c)
    simp only [List.foldl_cons]
    omega

theorem parseUintLoop_digits (ds : List Char) :
    ∀ acc : Nat, (∀ c ∈ ds, digitVal 16 c < 16 ∧ c ≠ '_') →
      ds.foldl (fun z c => z * 16 + digitVal 16 c) acc ≤ maxUint64 →
      parseUintLoop 16 ds acc
        = some (ds.foldl (fun z c => z * 16 + digitVal 16 c) acc, true) := by
  induction ds with
  | nil => intro acc _ _; simp [parseUintLoop]
  | cons c ds ih =>
    intro acc h hle
    have hc := (h c (List.mem_cons_self c ds)).1
    have hds : ∀ d ∈ ds, digitVal 16 d < 16 ∧ d ≠ '_' :=
      fun d hd => h d (List.mem_cons_of_mem c hd)
    simp only [List.foldl_cons] at hle ⊢
    have hge := foldl_digits_ge ds (acc * 16 + digitVal 16 c)
    have hmax : maxUint64 = 18446744073709551615 := by decide
    simp only [parseUintLoop, ← digitVal_16_eq_36]
    rw [if_neg (by omega), if_neg (by omega), if_neg (by rw [hmax]; omega),
      if_neg (by omega)]
    exact ih _ hds hle

theorem HexToUint64_EncodeBig (n : Nat) (h : n < 2 ^ 64) :
    HexToUint64 (EncodeBig n) = (n, none) := by
  have hpre : RemoveHexPrefix (EncodeBig n) = ⟨Nat.toDigits 16 n⟩ := by
    simp [RemoveHexPrefix, HasHexPrefix, EncodeBig]
  have hle : (Nat.toDigits 16 n).foldl (fun z c => z * 16 + digitVal 16 c) 0 ≤ maxUint64 := by
    rw [toDigits_value]
    have hmax : maxUint64 = 18446744073709551615 := by decide
    rw [hmax]
    omega
  have hloop := parseUintLoop_digits (Nat.toDigits 16 n) 0 (toDigits_hex n) hle
  rw [toDigits_value] at hloop
  simp only [HexToUint64, hpre, ParseUint, hloop]
  rw [if_neg (toDigits_ne_nil n)]

/-! ## Balances on the wire -/

/-- C4: for every non-negative integer `n` of any size, when the transport
answers `eth_getBalance` with the `0x`-prefixed hexadecimal encoding of `n` and
no error, `GetWeiBalance` returns exactly `n` and no error: nothing is cut to 64
bits. -/
theorem GetWeiBalance_decodes_hex {σ : Type} (cm : Common) (eth : EthClient σ)
    (a : Address) (s : σ) (n : Nat)
    (hwritten : (eth.Call .string "eth_getBalance"
        [.string (cm.AddressHex a), .string "latest"] s).1.written = some (EncodeBig n))
    (hnil : (eth.Call .string "eth_getBalance"
        [.string (cm.AddressHex a), .string "latest"] s).1.err = none) :
    (EthClient.GetWeiBalance cm eth a s).1 = (⟨false, n⟩, none)
    ∧ (EthClient.GetWeiBalance cm eth a s).1.1.toInt = (n : ℤ) := by
  have h1 : (EthClient.GetWeiBalance cm eth a s).1 = (⟨false, n⟩, none) := by
    simp only [EthClient.GetWeiBalance, hwritten, hnil, Option.getD_some, SetString_EncodeBig]
  refine ⟨h1, ?_⟩
  rw [h1]
  simp [big.Int.toInt]

/-- C4, at `2^128 + 7`, `2^64 - 1`, `1` and `0`. -/
theorem GetWeiBalance_decodes_hex_witness :
    EncodeBig (2 ^ 128 + 7) = "0x100000000000000000000000000000007"
    ∧ ((EthClient.GetWeiBalance plainHex ⟨answering (EncodeBig (2 ^ 128 + 7))⟩
          Address.zero ()).1 = (⟨false, 2 ^ 128 + 7⟩, none)
      ∧ (EthClient.GetWeiBalance plainHex ⟨answering (EncodeBig (2 ^ 128 + 7))⟩
          Address.zero ()).1.1.toInt = ((2 ^ 128 + 7 : Nat) : ℤ))
    ∧ (EthClient.GetWeiBalance plainHex ⟨answering (EncodeBig (2 ^ 64 - 1))⟩
          Address.zero ()).1 = (⟨false, 2 ^ 64 - 1⟩, none)
    ∧ (EthClient.GetWeiBalance plainHex ⟨answering (EncodeBig 1)⟩
          Address.zero ()).1 = (⟨false, 1⟩, none)
    ∧ (EthClient.GetWeiBalance plainHex ⟨answering (EncodeBig 0)⟩
          Address.zero ()).1 = (⟨false, 0⟩, none) :=
  ⟨by decide,
    GetWeiBalance_decodes_hex plainHex ⟨answering (EncodeBig (2 ^ 128 + 7))⟩ Address.zero ()
      (2 ^ 128 + 7) rfl rfl,
    (GetWeiBalance_decodes_hex plainHex ⟨answering (EncodeBig (2 ^ 64 - 1))⟩ Address.zero ()
      (2 ^ 64 - 1) rfl rfl).1,
    (GetWeiBalance_decodes_hex plainHex ⟨answering (EncodeBig 1)⟩ Address.zero () 1 rfl rfl).1,
    (GetWeiBalance_decodes_hex plainHex ⟨answering (EncodeBig 0)⟩ Address.zero () 0 rfl rfl).1⟩

/-- C1: on a response that is no hexadecimal integer (`""`, `"0xzz"`,
`"not hex"`) from a call that succeeded, `GetWeiBalance` and `GetERC20Balance`
return the amount zero with a nil error, where `GetNonce`, which decodes with
`HexToUint64`, returns an error on the same response. -/
theorem balance_of_malformed_response_is_zero_nil (a c : Address) :
    (EthClient.GetWeiBalance plainHex ⟨answering ""⟩ a ()).1 = (⟨false, 0⟩, none)
    ∧ (EthClient.GetWeiBalance plainHex ⟨answering "0xzz"⟩ a ()).1 = (⟨false, 0⟩, none)
    ∧ (EthClient.GetWeiBalance plainHex ⟨answering "not hex"⟩ a ()).1 = (⟨false, 0⟩, none)
    ∧ (EthClient.GetERC20Balance ⟨answering ""⟩ a c ()).1 = (⟨false, 0⟩, none)
    ∧ (EthClient.GetERC20Balance ⟨answering "0xzz"⟩ a c ()).1 = (⟨false, 0⟩, none)
    ∧ (EthClient.GetERC20Balance ⟨answering "not hex"⟩ a c ()).1 = (⟨false, 0⟩, none)
    ∧ (EthClient.GetNonce plainHex ⟨answering ""⟩ a ()).1
        = (0, some (.errSyntax "ParseUint" "")) := by
  refine ⟨?_, ?_, ?_, ?_, ?_, ?_, ?_⟩ <;> rfl

/-! ## The nonce -/

theorem GetNonce_state {σ : Type} (cm : Common) (eth : EthClient σ) (a : Address) (s : σ) :
    (EthClient.GetNonce cm eth a s).2
      = (eth.Call .string "eth_getTransactionCount"
          [.string (cm.AddressHex a), .string "latest"] s).2 := by
  unfold EthClient.GetNonce
  dsimp only
  split <;> rfl

/-- C5 as stated fails: the one request `GetNonce` sends for the zero address
carries the block tag `latest`, not `pending`. -/
theorem GetNonce_block_tag_not_pending :
    (EthClient.GetNonce plainHex (recording (answering "0x5")) Address.zero ((), [])).2.2
        = [.call "eth_getTransactionCount"
            [.string (plainHex.AddressHex Address.zero), .string "latest"]]
    ∧ (EthClient.GetNonce plainHex (recording (answering "0x5")) Address.zero ((), [])).2.2
        ≠ [.call "eth_getTransactionCount"
            [.string (plainHex.AddressHex Address.zero), .string "pending"]] := by
  decide

/-- C5, amended: for every address `a`, `GetNonce` issues a single transport
call, of method `eth_getTransactionCount` with arguments (hex form of `a`, block
tag `latest`); on a successful call it returns what `HexToUint64` decodes from
the response, which for the hex encoding of a count `n < 2^64` is `n` with no
error. -/
theorem GetNonce_latest_count {σ : Type} (cm : Common) (t : CallerSubscriber σ)
    (a : Address) (s : σ) (log : List Request) :
    (EthClient.GetNonce cm (recording t) a (s, log)).2.2
        = log ++ [.call "eth_getTransactionCount"
            [.string (cm.AddressHex a), .string "latest"]]
    ∧ (EthClient.GetNonce cm (recording t) a (s, log)).2.1
        = (t.Call .string "eth_getTransactionCount"
            [.string (cm.AddressHex a), .string "latest"] s).2
    ∧ ((t.Call .string "eth_getTransactionCount"
          [.string (cm.AddressHex a), .string "latest"] s).1.err = none →
        (EthClient.GetNonce cm (recording t) a (s, log)).1
          = HexToUint64 ((t.Call .string "eth_getTransactionCount"
              [.string (cm.AddressHex a), .string "latest"] s).1.written.getD ""))
    ∧ (∀ n : Nat, n < 2 ^ 64 →
        (t.Call .string "eth_getTransactionCount"
          [.string (cm.AddressHex a), .string "latest"] s).1.written = some (EncodeBig n) →
        (t.Call .string "eth_getTransactionCount"
          [.string (cm.AddressHex a), .string "latest"] s).1.err = none →
        (EthClient.GetNonce cm (recording t) a (s, log)).1 = (n, none)) := by
  have hrec : ((recording t).Call .string "eth_getTransactionCount"
      [.string (cm.AddressHex a), .string "latest"] (s, log)).1
      = (t.Call .string "eth_getTransactionCount"
        [.string (cm.AddressHex a), .string "latest"] s).1 := rfl
  refine ⟨?_, ?_, ?_, ?_⟩
  · rw [GetNonce_state]; rfl
  · rw [GetNonce_state]; rfl
  · intro h
    simp only [EthClient.GetNonce, hrec, h]
  · intro n hn hw h
    simp only [EthClient.GetNonce, hrec, h, hw, Option.getD_some]
    exact HexToUint64_EncodeBig n hn

/-- C5 amended, on a transport that answers `0x5`. -/
theorem GetNonce_latest_count_witness :
    (EthClient.GetNonce plainHex (recording (answering (EncodeBig 5))) Address.zero
        ((), [])).1 = HexToUint64 (EncodeBig 5)
    ∧ (EthClient.GetNonce plainHex (recording (answering (EncodeBig 5))) Address.zero
        ((), [])).1 = (5, none) :=
  ⟨(GetNonce_latest_count plainHex (answering (EncodeBig 5)) Address.zero () []).2.2.1 rfl,
    (GetNonce_latest_count plainHex (answering (EncodeBig 5)) Address.zero () []).2.2.2
      5 (by decide) rfl rfl⟩

end Chainlink
